import Mathlib

/-!
# `ascii.c`: glyph quantiser, resampler, frame renderer and video session

A shallow embedding of `src/ascii.c`.

* C `int` values that occur here (dimensions, loop counters, byte values, brightness) are
  non-negative and are modelled as `Nat`; 32-bit overflow is not modelled.
* A pixel buffer (`unsigned char *`) is a `List Nat`; a read past the end yields `0`.
* A `float` is the rational number it denotes. Every `float` operation of the two scaling
  computations (a conversion from `int`, a division, a product) is followed by a rounding
  `rnd : ℚ → ℚ`, a parameter of the definitions: `rnd = f32`, rounding to the nearest
  binary32 number, is the arithmetic of the code, and `rnd = id` is exact arithmetic. The
  `(int)` cast of a non-negative value is its floor.
* Text written to `stdout` or to the output file is a `String`; the results of calls into
  the external libraries (`stbi_load`, `malloc`, `fopen`, libav*) are parameters.
-/

namespace Ascii

/-! ## Glyph quantiser -/

/-- The glyph ramp: `const char *ascii_chars = " .:-=+*#%@";`. -/
def ascii_chars : String := " .:-=+*#%@"

/-- The byte `ascii_chars[i]` (NUL past the last glyph). -/
def ramp (i : Nat) : Char := ascii_chars.toList.getD i (Char.ofNat 0)

/-- The function `get_ascii_char` (lines 32-51). -/
def get_ascii_char (brightness : Nat) : Char :=
  if brightness < 30 then ramp 0
  else if brightness < 60 then ramp 1
  else if brightness < 90 then ramp 2
  else if brightness < 120 then ramp 3
  else if brightness < 150 then ramp 4
  else if brightness < 180 then ramp 5
  else if brightness < 210 then ramp 6
  else if brightness < 240 then ramp 7
  else ramp 8

/-- The text `print_colored_char` prints: `"\033[38;2;%d;%d;%dm%c\033[0m"` (lines 53-55). -/
def print_colored_char (r g b : Nat) (c : Char) : String :=
  "\x1b[38;2;" ++ toString r ++ ";" ++ toString g ++ ";" ++ toString b ++ "m"
    ++ String.singleton c ++ "\x1b[0m"

/-! ## Loops that write text -/

/-- The loop `for (i = start; i < bound; i += step) body(i)`, returning the text the bodies
write, in order. At most `fuel` iterations are run. -/
def forLoop (fuel : Nat) (i bound step : Nat) (body : Nat → String) : String :=
  match fuel with
  | 0 => ""
  | fuel + 1 => if i < bound then body i ++ forLoop fuel (i + step) bound step body else ""

/-- Concatenation of a list of texts, left to right. -/
def concatStr : List String → String
  | [] => ""
  | s :: ss => s ++ concatStr ss

/-! ## Single-precision arithmetic -/

/-- Rounding to the nearest integer, a tie going to the even one. -/
def roundNE (t : ℚ) : ℤ :=
  if t - ⌊t⌋ < 1 / 2 then ⌊t⌋
  else if 1 / 2 < t - ⌊t⌋ then ⌊t⌋ + 1
  else if ⌊t⌋ % 2 = 0 then ⌊t⌋ else ⌊t⌋ + 1

/-- The binary32 number nearest to `q` (24-bit significand, ties to even): the result of a
`float` operation whose exact value is `q`. The exponent is not bounded: the values that
arise from 32-bit `int` operands lie between `2^-31` and `2^62`, inside the normal range. -/
def f32 (q : ℚ) : ℚ :=
  if q = 0 then 0
  else roundNE (q / 2 ^ (Int.log 2 |q| - 23)) * 2 ^ (Int.log 2 |q| - 23)

/-! ## Image path: resampling (lines 65-91) -/

/-- The factor `scale = fminf((float)max_width / width, (float)max_height / height)`
(line 69): both operands of each division are converted to `float`, each quotient is
rounded. -/
def scaleOf (rnd : ℚ → ℚ) (width height max_width max_height : Nat) : ℚ :=
  min (rnd (rnd max_width / rnd width)) (rnd (rnd max_height / rnd height))

/-- The cast `(int)` of a non-negative value. -/
def toInt (q : ℚ) : Nat := ⌊q⌋₊

/-- The pair `(new_width, new_height)` of `process_image` (lines 65-71). -/
def newDims (rnd : ℚ → ℚ) (width height max_width max_height : Nat) : Nat × Nat :=
  if width > max_width ∨ height > max_height then
    let scale := scaleOf rnd width height max_width max_height
    (toInt (rnd (rnd width * scale)), toInt (rnd (rnd height * scale)))
  else (width, height)

/-- The column `src_x = (int)(x / scale)` (line 82); `src_y` is `srcCoord rnd scale y`
(line 83). -/
def srcCoord (rnd : ℚ → ℚ) (scale : ℚ) (x : Nat) : Nat := toInt (rnd (rnd x / scale))

/-- The index read from `img` on line 85. -/
def srcIndex (rnd : ℚ → ℚ) (width channels : Nat) (scale : ℚ) (x y c : Nat) : Nat :=
  (srcCoord rnd scale y * width + srcCoord rnd scale x) * channels + c

/-- The index written in `scaled_img` on line 85. -/
def dstIndex (new_width channels x y c : Nat) : Nat :=
  (y * new_width + x) * channels + c

/-- The nearest-neighbour loops of lines 80-88 over a freshly allocated buffer of
`new_width * new_height * channels` bytes. -/
def fillScaled (rnd : ℚ → ℚ) (width channels new_width new_height : Nat) (scale : ℚ)
    (img : List Nat) : List Nat :=
  (List.range new_height).foldl (fun buf y =>
    (List.range new_width).foldl (fun buf x =>
      (List.range channels).foldl (fun buf c =>
        buf.set (dstIndex new_width channels x y c)
          (img.getD (srcIndex rnd width channels scale x y c) 0)) buf) buf)
    (List.replicate (new_width * new_height * channels) 0)

/-- The outcome of the resampling step: dimensions and buffer rendered afterwards. -/
structure Scaled where
  new_width : Nat
  new_height : Nat
  img : List Nat
deriving DecidableEq, Repr

/-- The resampling step of `process_image` (lines 65-91), in the arithmetic of the code;
`none` when `malloc` fails. -/
def resample (width height channels : Nat) (img : List Nat) (max_width max_height : Nat)
    (malloc_ok : Bool) : Option Scaled :=
  if width > max_width ∨ height > max_height then
    let scale := scaleOf f32 width height max_width max_height
    let new_width := toInt (f32 (f32 width * scale))
    let new_height := toInt (f32 (f32 height * scale))
    if malloc_ok then
      some ⟨new_width, new_height,
        fillScaled f32 width channels new_width new_height scale img⟩
    else none
  else some ⟨width, height, img⟩

/-! ## Image path: rendering (lines 103-122) -/

/-- One cell of the image render loop (lines 105-118): the text written for the pixel at
`pixel_idx`, to the file when `write_to_file`, else to `stdout`. -/
def imageCell (channels : Nat) (img : List Nat) (pixel_idx : Nat) (write_to_file : Bool) :
    String :=
  if channels = 4 ∧ img.getD (pixel_idx + 3) 0 = 0 then
    if write_to_file then " " else " "
  else
    let r := img.getD pixel_idx 0
    let g := if channels > 1 then img.getD (pixel_idx + 1) 0 else r
    let b := if channels > 2 then img.getD (pixel_idx + 2) 0 else r
    let brightness := (r + g + b) / 3
    let c := get_ascii_char brightness
    if write_to_file then String.singleton c else print_colored_char r g b c

/-- The pair `(new_width, new_height)` of `process_video` (lines 215-221), from the
stream's `codec_ctx->width` and `codec_ctx->height`. In `new_width / aspect`,
`new_height * aspect` and the comparison the `int` operand is converted to `float`. -/
def videoDims (rnd : ℚ → ℚ) (width height max_width max_height : Nat) : Nat × Nat :=
  let new_width := if width > max_width then max_width else width
  let new_height := if height > max_height then max_height else height
  let aspect : ℚ := rnd (rnd width / rnd height)
  if rnd (rnd new_width / aspect) > rnd new_height then
    (toInt (rnd (rnd new_height * aspect)), new_height)
  else (new_width, toInt (rnd (rnd new_width / aspect)))

/-! ## Video path: frame rendering (lines 260-313) -/

/-- The frame `rgb_frame` as `sws_scale` leaves it: `linesize[0]` and `data[0]`. -/
structure RGBFrame where
  linesize : Nat
  data : List Nat
deriving DecidableEq, Repr

/-- What reaches the terminal: a `system("clear")` or printed text. -/
inductive TermEvent where
  | clear
  | print (s : String)
deriving DecidableEq, Repr

/-- The state the frame loop updates: the counter `frame_number`, the bytes written to
`out_file`, and the terminal actions, oldest first. -/
structure Sinks where
  frame_number : Nat
  file : String
  term : List TermEvent
deriving DecidableEq, Repr

/-- One cell of a video frame (lines 273-280 and 300-307). -/
def videoCell (f : RGBFrame) (write_to_file : Bool) (y x : Nat) : String :=
  let pixel_idx := y * f.linesize + x * 3
  let r := f.data.getD pixel_idx 0
  let g := f.data.getD (pixel_idx + 1) 0
  let b := f.data.getD (pixel_idx + 2) 0
  let brightness := (r + g + b) / 3
  let c := get_ascii_char brightness
  if write_to_file then String.singleton c else print_colored_char r g b c

/-- The glyph rows of one video frame (lines 271-284 and 298-311). -/
def frameRows (new_width new_height : Nat) (f : RGBFrame) (write_to_file : Bool) : String :=
  forLoop new_height 0 new_height 2
    (fun y => forLoop new_width 0 new_width 1 (videoCell f write_to_file y) ++ "\n")

/-- The label `"Frame %d:\n"` of lines 269-270 and 296-297. -/
def frameLabel (n : Nat) : String := "Frame " ++ toString n ++ ":\n"

/-- The body run for each frame the decoder yields (lines 266-285 and 293-312). -/
def renderFrame (new_width new_height : Nat) (write_to_file : Bool) (s : Sinks)
    (f : RGBFrame) : Sinks :=
  if write_to_file then
    { frame_number := s.frame_number + 1
      file := s.file ++
        (frameLabel (s.frame_number + 1) ++ frameRows new_width new_height f true ++ "\n")
      term := s.term }
  else
    { frame_number := s.frame_number + 1
      file := s.file
      term := s.term ++ [TermEvent.clear,
        TermEvent.print (frameLabel (s.frame_number + 1)
          ++ frameRows new_width new_height f false)] }

/-- One packet `av_read_frame` delivers: its stream, whether `avcodec_send_packet`
accepts it, and the frames `avcodec_receive_frame` then yields (each already converted
by `sws_scale`). -/
structure Packet where
  stream_index : Nat
  send_ok : Bool
  frames : List RGBFrame

/-- The body of the packet loop (lines 263-289). -/
def packetStep (video_stream new_width new_height : Nat) (write_to_file : Bool) (s : Sinks)
    (p : Packet) : Sinks :=
  if p.stream_index = video_stream then
    if p.send_ok then p.frames.foldl (renderFrame new_width new_height write_to_file) s
    else s
  else s

/-- Lines 260-313: the packet loop, then the end-of-stream flush, starting from
`frame_number = 0`. -/
def frameLoop (video_stream new_width new_height : Nat) (write_to_file : Bool)
    (packets : List Packet) (flushed : List RGBFrame) : Sinks :=
  flushed.foldl (renderFrame new_width new_height write_to_file)
    (packets.foldl (packetStep video_stream new_width new_height write_to_file) ⟨0, "", []⟩)

/-- The frames the decoder yields over a session, in decode order: those drained in the
packet loop, then those drained by the flush. -/
def yieldedFrames (video_stream : Nat) (packets : List Packet) (flushed : List RGBFrame) :
    List RGBFrame :=
  (packets.filter (fun p => p.stream_index = video_stream ∧ p.send_ok = true)).flatMap
      (fun p => p.frames)
    ++ flushed

/-! ## Video path: the session (lines 127-323) -/

/-- The native resources `process_video` owns. -/
inductive Resource where
  | frame | packet | out_file | fmt_ctx | codec_ctx | sws_ctx | rgb_frame
deriving DecidableEq, Repr

/-- A resource being acquired or released. -/
inductive Event where
  | acquire (r : Resource)
  | release (r : Resource)
deriving DecidableEq, Repr

/-- Whether each fallible call of the set-up succeeds, and what the container holds. -/
structure Session where
  frame_alloc : Bool
  packet_alloc : Bool
  fopen : Bool
  open_input : Bool
  find_stream_info : Bool
  video_stream : Option Nat
  find_decoder : Bool
  alloc_context3 : Bool
  parameters_to_context : Bool
  open2 : Bool
  width : Nat
  height : Nat
  sws_getContext : Bool
  rgb_frame_alloc : Bool
  get_buffer : Bool
  packets : List Packet
  flushed : List RGBFrame

/-- What a run of `process_video` does: resource events in order, terminal actions, and
the bytes written to the output file, if it was opened. -/
structure VideoRun where
  events : List Event
  term : List TermEvent
  file : Option String
deriving DecidableEq, Repr

open Resource Event

/-- The function `process_video` (lines 127-323). -/
def process_video (k : Session) (write_to_file : Bool) (output_file : String)
    (max_width max_height : Nat) : VideoRun :=
  if ¬ k.frame_alloc then ⟨[], [.print "Memory allocation error for frame\n"], none⟩ else
  if ¬ k.packet_alloc then
    ⟨[acquire frame, release frame], [.print "Error allocating memory for package\n"], none⟩
  else
  if write_to_file ∧ ¬ k.fopen then
    ⟨[acquire frame, acquire packet, release packet, release frame],
      [.print ("Error opening file " ++ output_file ++ "\n")], none⟩
  else
  let acq0 := [acquire frame, acquire packet] ++
    (if write_to_file then [acquire out_file] else [])
  let file0 : Option String := if write_to_file then some "" else none
  if ¬ k.open_input then
    ⟨acq0 ++ [release packet, release frame], [.print "Error opening video\n"], file0⟩
  else
  let acq1 := acq0 ++ [acquire fmt_ctx]
  let rel1 := [release fmt_ctx, release packet, release frame]
  if ¬ k.find_stream_info then
    ⟨acq1 ++ rel1, [.print "Error getting flow information\n"], file0⟩
  else
  match k.video_stream with
  | none => ⟨acq1 ++ rel1, [.print "Video stream not found\n"], file0⟩
  | some video_stream =>
  if ¬ k.find_decoder then ⟨acq1 ++ rel1, [.print "Codec not found\n"], file0⟩ else
  if ¬ k.alloc_context3 then
    ⟨acq1 ++ rel1, [.print "Error allocating memory for codec context\n"], file0⟩
  else
  let acq2 := acq1 ++ [acquire codec_ctx]
  let rel2 := release codec_ctx :: rel1
  if ¬ k.parameters_to_context then
    ⟨acq2 ++ rel2, [.print "Error copying codec parameters to context\n"], file0⟩
  else
  if ¬ k.open2 then ⟨acq2 ++ rel2, [.print "Error opening codec\n"], file0⟩ else
  let dims := videoDims f32 k.width k.height max_width max_height
  if ¬ k.sws_getContext then
    ⟨acq2 ++ rel2, [.print "Error initializing SwsContext\n"], file0⟩
  else
  let acq3 := acq2 ++ [acquire sws_ctx]
  if ¬ k.rgb_frame_alloc then
    ⟨acq3 ++ release sws_ctx :: rel2,
      [.print "Error allocating memory for rgb_frame\n"], file0⟩
  else
  let acq4 := acq3 ++ [acquire rgb_frame]
  if ¬ k.get_buffer then
    ⟨acq4 ++ release rgb_frame :: release sws_ctx :: rel2,
      [.print "Error allocating buffer for rgb_frame\n"], file0⟩
  else
  let s := frameLoop video_stream dims.1 dims.2 write_to_file k.packets k.flushed
  ⟨acq4 ++ (if write_to_file then [release out_file] else []) ++
      [release packet, release frame, release rgb_frame, release sws_ctx,
        release codec_ctx, release fmt_ctx],
    s.term, if write_to_file then some s.file else none⟩

/-! ## Vocabulary of the properties -/

/-- A rounding with the two properties of `float` arithmetic the bounds rest on: a positive
value moves by at most the fraction `2^-24` of itself, and a natural number below `2^24`
does not move. -/
structure Rounding (rnd : ℚ → ℚ) : Prop where
  err : ∀ q : ℚ, 0 < q → |rnd q - q| ≤ q / 2 ^ 24
  nat : ∀ n : ℕ, n < 2 ^ 24 → rnd (n : ℚ) = n

/-- Rounded aspect ratios agree: the output height is non-zero and `round (outW / outH)`
is within 1 of `round (w / h)`. -/
def aspectRoundPreserved (w h outW outH : Nat) : Prop :=
  outH ≠ 0 ∧ |round ((outW : ℚ) / outH) - round ((w : ℚ) / h)| ≤ 1

/-- One frame block of the output file: label line, glyph rows, blank line. -/
def frameBlock (new_width new_height : Nat) (kf : Nat × RGBFrame) : String :=
  frameLabel kf.1 ++ frameRows new_width new_height kf.2 true ++ "\n"

/-- Resource `r` is released as often as it is acquired, and acquired at most once. -/
def balanced (r : Resource) (evs : List Event) : Prop :=
  evs.count (Event.release r) = evs.count (Event.acquire r) ∧
    evs.count (Event.acquire r) ≤ 1

/-- A 2x3 frame as `sws_scale` leaves it, each line padded to 8 bytes: black and white in
row 0, two greys in row 1, orange and dark grey in row 2. -/
def sampleFrame : RGBFrame :=
  ⟨8, [0, 0, 0, 255, 255, 255, 9, 9, 128, 128, 128, 30, 30, 30, 9, 9,
    200, 100, 0, 60, 60, 60, 9, 9]⟩

/-- A session whose output file opens and whose container then fails to open. -/
def openInputFails : Session :=
  { frame_alloc := true, packet_alloc := true, fopen := true, open_input := false,
    find_stream_info := true, video_stream := some 0, find_decoder := true,
    alloc_context3 := true, parameters_to_context := true, open2 := true,
    width := 4, height := 4, sws_getContext := true, rgb_frame_alloc := true,
    get_buffer := true, packets := [], flushed := [] }

/-! ## Facts about the loops -/

theorem concatStr_append (xs ys : List String) :
    concatStr (xs ++ ys) = concatStr xs ++ concatStr ys := by
  induction xs with
  | nil => simp [concatStr]
  | cons x xs ih => simp [concatStr, ih, String.append_assoc]

/-- A unit-stride loop with enough fuel writes the bodies of `i, i+1, ..., bound-1`. -/
theorem forLoop_step_one (body : Nat → String) :
    ∀ (fuel i bound : Nat), bound ≤ i + fuel →
      forLoop fuel i bound 1 body
        = concatStr ((List.range (bound - i)).map (fun k => body (i + k))) := by
  intro fuel
  induction fuel with
  | zero =>
    intro i bound h
    have : bound - i = 0 := by omega
    simp [forLoop, this, concatStr]
  | succ n ih =>
    intro i bound h
    unfold forLoop
    by_cases hlt : i < bound
    · have hc : bound - i = (bound - (i + 1)) + 1 := by omega
      rw [if_pos hlt, ih (i + 1) bound (by omega), hc, List.range_succ_eq_map]
      simp only [List.map_cons, List.map_map, concatStr, Nat.add_zero]
      congr 2
      apply List.map_congr_left
      intro k _
      simp only [Function.comp, Nat.succ_eq_add_one]
      congr 1
      omega
    · have : bound - i = 0 := by omega
      simp [hlt, this, concatStr]

/-- A stride-2 loop from `0` with enough fuel writes the bodies of `i, i+2, ...`: one per
pair of indices, `⌈(bound - i) / 2⌉` in all. -/
theorem forLoop_step_two (body : Nat → String) :
    ∀ (fuel i bound : Nat), bound ≤ i + 2 * fuel →
      forLoop fuel i bound 2 body
        = concatStr ((List.range ((bound - i + 1) / 2)).map (fun k => body (i + 2 * k))) := by
  intro fuel
  induction fuel with
  | zero =>
    intro i bound h
    have : (bound - i + 1) / 2 = 0 := by omega
    simp [forLoop, this, concatStr]
  | succ n ih =>
    intro i bound h
    unfold forLoop
    by_cases hlt : i < bound
    · have hc : (bound - i + 1) / 2 = (bound - (i + 2) + 1) / 2 + 1 := by omega
      rw [if_pos hlt, ih (i + 2) bound (by omega), hc, List.range_succ_eq_map]
      simp only [List.map_cons, List.map_map, concatStr, Nat.mul_zero, Nat.add_zero]
      congr 2
      apply List.map_congr_left
      intro k _
      simp only [Function.comp, Nat.succ_eq_add_one]
      congr 1
      omega
    · have : (bound - i + 1) / 2 = 0 := by omega
      simp [hlt, this, concatStr]

/-! ## Glyph quantiser: buckets -/

/-- On byte-range brightness the branch chain of `get_ascii_char` picks `ramp[b / 30]`. -/
theorem get_ascii_char_eq_div (b : Nat) (hb : b ≤ 255) : get_ascii_char b = ramp (b / 30) := by
  unfold get_ascii_char
  split_ifs
  all_goals (congr 1; omega)

/-- C1 as stated fails at brightness 240: the last branch returns `ramp[8]`, the glyph
`%`, and not `ramp[9]`, the glyph `@`. -/
theorem get_ascii_char_240_not_last :
    get_ascii_char 240 = ramp 8 ∧ ramp 8 = '%' ∧ ramp 9 = '@' ∧ get_ascii_char 240 ≠ ramp 9 := by
  decide

/-- C1, amended: for every brightness `b` in `0..255`, `get_ascii_char b` is the glyph of
the ramp whose index is the bucket of `b`, each threshold being the inclusive lower bound of
the next bucket: index 0 for `b < 30`, index `k` for `30*k ≤ b < 30*(k+1)`, and index 8 for
`b ≥ 240`; in particular 29 gives `ramp[0]`, 30 gives `ramp[1]` and 240 gives `ramp[8]`. -/
theorem get_ascii_char_bucket (b : Nat) (hb : b ≤ 255) :
    (b < 30 → get_ascii_char b = ramp 0) ∧
    (∀ k : Nat, 30 * k ≤ b → b < 30 * (k + 1) → get_ascii_char b = ramp k) ∧
    (240 ≤ b → get_ascii_char b = ramp 8) ∧
    get_ascii_char 29 = ramp 0 ∧ get_ascii_char 30 = ramp 1 ∧ get_ascii_char 240 = ramp 8 := by
  rw [get_ascii_char_eq_div b hb]
  refine ⟨fun h => ?_, fun k h1 h2 => ?_, fun h => ?_, by decide, by decide, by decide⟩
  · congr 1; omega
  · congr 1; omega
  · congr 1; omega

theorem get_ascii_char_bucket_witness :
    255 ≤ 255 ∧ 240 ≤ 255 ∧ get_ascii_char 255 = ramp 8 :=
  ⟨by decide, by decide, (get_ascii_char_bucket 255 (by decide)).2.2.1 (by decide)⟩

/-! ## Image renderer: transparent pixels -/

/-- C2: in the image render loop over a 4-channel buffer, a sampled pixel (at `pixel_idx`)
whose alpha byte `img[pixel_idx + 3]` is 0 is written as the single space character, with
no colour escape, to the terminal and to the file alike, whatever its R, G and B bytes. -/
theorem imageCell_transparent (img : List Nat) (pixel_idx : Nat) (write_to_file : Bool)
    (halpha : img.getD (pixel_idx + 3) 0 = 0) :
    imageCell 4 img pixel_idx write_to_file = " " := by
  unfold imageCell
  rw [if_pos ⟨rfl, halpha⟩]
  cases write_to_file <;> rfl

theorem imageCell_transparent_witness :
    imageCell 4 [255, 0, 0, 0] 0 false = " " ∧ imageCell 4 [255, 0, 0, 0] 0 true = " " :=
  ⟨imageCell_transparent [255, 0, 0, 0] 0 false (by decide),
    imageCell_transparent [255, 0, 0, 0] 0 true (by decide)⟩

/-! ## Resampler: buffers that fit -/

theorem resample_of_fits (w h channels : Nat) (img : List Nat) (maxW maxH : Nat)
    (malloc_ok : Bool) (hw : w ≤ maxW) (hh : h ≤ maxH) :
    resample w h channels img maxW maxH malloc_ok = some ⟨w, h, img⟩ := by
  unfold resample
  rw [if_neg (by omega)]

/-- C3: when `w ≤ maxW` and `h ≤ maxH` the resampling step returns the input unchanged:
the same width, the same height and the same buffer; resampling its result again returns
it once more. -/
theorem resample_fits (w h channels : Nat) (img : List Nat) (maxW maxH : Nat)
    (malloc_ok : Bool) (hw : w ≤ maxW) (hh : h ≤ maxH) :
    resample w h channels img maxW maxH malloc_ok = some ⟨w, h, img⟩ ∧
    ∀ s, resample w h channels img maxW maxH malloc_ok = some s →
      (s.new_width = w ∧ s.new_height = h ∧ s.img = img) ∧
      resample s.new_width s.new_height channels s.img maxW maxH malloc_ok = some s := by
  have key := resample_of_fits w h channels img maxW maxH malloc_ok hw hh
  refine ⟨key, fun s hs => ?_⟩
  rw [key] at hs
  cases hs
  exact ⟨⟨rfl, rfl, rfl⟩, key⟩

theorem resample_fits_witness :
    resample 2 2 3 [1, 2, 3, 4, 5, 6, 7, 8, 9, 10, 11, 12] 600 140 false
      = some ⟨2, 2, [1, 2, 3, 4, 5, 6, 7, 8, 9, 10, 11, 12]⟩ :=
  (resample_fits 2 2 3 [1, 2, 3, 4, 5, 6, 7, 8, 9, 10, 11, 12] 600 140 false
    (by decide) (by decide)).1

/-! ## Single-precision arithmetic: facts -/

theorem roundNE_sub_le (t : ℚ) : |(roundNE t : ℚ) - t| ≤ 1 / 2 := by
  have h0 : 0 ≤ t - ⌊t⌋ := sub_nonneg.2 (Int.floor_le t)
  have h1 : t - ⌊t⌋ < 1 := by
    have := Int.lt_floor_add_one t
    linarith
  unfold roundNE
  rw [abs_le]
  split_ifs with a b c
  · constructor <;> linarith
  · push_cast; constructor <;> linarith
  · have : t - ⌊t⌋ = 1 / 2 := le_antisymm (not_lt.1 b) (not_lt.1 a)
    constructor <;> linarith
  · have : t - ⌊t⌋ = 1 / 2 := le_antisymm (not_lt.1 b) (not_lt.1 a)
    push_cast; constructor <;> linarith

theorem roundNE_intCast (n : ℤ) : roundNE (n : ℚ) = n := by
  unfold roundNE
  rw [Int.floor_intCast, sub_self, if_pos (by norm_num)]

/-- Away from a tie, `roundNE t` is the integer within one half of `t`. -/
theorem roundNE_eq (t : ℚ) (m : ℤ) (h1 : (m : ℚ) - 1 / 2 < t) (h2 : t < (m : ℚ) + 1 / 2) :
    roundNE t = m := by
  have hb := roundNE_sub_le t
  rw [abs_le] at hb
  have e1 : ((roundNE t : ℤ) : ℚ) < ((m + 1 : ℤ) : ℚ) := by push_cast; linarith
  have e2 : ((m - 1 : ℤ) : ℚ) < ((roundNE t : ℤ) : ℚ) := by push_cast; linarith
  have e1' := Int.cast_lt.1 e1
  have e2' := Int.cast_lt.1 e2
  omega

/-- The significand of a positive number lies in `[2^23, 2^24)`. -/
theorem ulp_bounds (q : ℚ) (hq : 0 < q) :
    (2 : ℚ) ^ 23 ≤ q / 2 ^ (Int.log 2 q - 23) ∧ q / 2 ^ (Int.log 2 q - 23) < 2 ^ 24 := by
  have hpos : (0 : ℚ) < 2 ^ (Int.log 2 q - 23) := by positivity
  have h1 : ((2 : ℕ) : ℚ) ^ Int.log 2 q ≤ q := Int.zpow_log_le_self (by norm_num) hq
  have h2 : q < ((2 : ℕ) : ℚ) ^ (Int.log 2 q + 1) := Int.lt_zpow_succ_log_self (by norm_num) q
  rw [Nat.cast_ofNat] at h1 h2
  have e1 : (2 : ℚ) ^ Int.log 2 q = 2 ^ 23 * 2 ^ (Int.log 2 q - 23) := by
    rw [show ((2 : ℚ) ^ 23) = (2 : ℚ) ^ (23 : ℤ) by norm_cast, ← zpow_add₀ (by norm_num)]
    congr 1; ring
  have e2 : (2 : ℚ) ^ (Int.log 2 q + 1) = 2 ^ 24 * 2 ^ (Int.log 2 q - 23) := by
    rw [show ((2 : ℚ) ^ 24) = (2 : ℚ) ^ (24 : ℤ) by norm_cast, ← zpow_add₀ (by norm_num)]
    congr 1; ring
  constructor
  · rw [le_div_iff₀ hpos, ← e1]; exact h1
  · rw [div_lt_iff₀ hpos, ← e2]; exact h2

/-- Rounding to binary32 moves a positive value by at most the fraction `2^-24` of it. -/
theorem f32_err (q : ℚ) (hq : 0 < q) : |f32 q - q| ≤ q / 2 ^ 24 := by
  unfold f32
  rw [if_neg hq.ne', abs_of_pos hq]
  set u : ℚ := 2 ^ (Int.log 2 q - 23) with hu
  have hpos : 0 < u := by positivity
  obtain ⟨b1, -⟩ := ulp_bounds q hq
  rw [← hu] at b1
  have hr := roundNE_sub_le (q / u)
  have e : (roundNE (q / u) : ℚ) * u - q = ((roundNE (q / u) : ℚ) - q / u) * u := by
    field_simp
  rw [e, abs_mul, abs_of_pos hpos]
  have hu2 : u ≤ q / 2 ^ 23 := by
    rw [le_div_iff₀ (by positivity)]
    rw [le_div_iff₀ hpos] at b1
    linarith
  calc |(roundNE (q / u) : ℚ) - q / u| * u ≤ 1 / 2 * u :=
        mul_le_mul_of_nonneg_right hr hpos.le
    _ ≤ 1 / 2 * (q / 2 ^ 23) := by linarith
    _ = q / 2 ^ 24 := by ring

/-- A natural number below `2^24` is a binary32 number. -/
theorem f32_natCast (n : ℕ) (hn : n < 2 ^ 24) : f32 (n : ℚ) = n := by
  unfold f32
  rcases Nat.eq_zero_or_pos n with h0 | h0
  · subst h0; simp
  · have hq : (0 : ℚ) < n := by exact_mod_cast h0
    rw [if_neg hq.ne', abs_of_pos hq, Int.log_natCast]
    have hl : Nat.log 2 n < 24 := Nat.log_lt_of_lt_pow h0.ne' hn
    obtain ⟨k, hk⟩ : ∃ k : ℕ, (Nat.log 2 n : ℤ) - 23 = -(k : ℤ) := ⟨23 - Nat.log 2 n, by omega⟩
    rw [hk, zpow_neg, zpow_natCast, div_inv_eq_mul]
    have : ((n : ℚ) * 2 ^ k) = ((n * 2 ^ k : ℕ) : ℤ) := by push_cast; ring
    rw [this, roundNE_intCast]
    push_cast
    field_simp

/-- Evaluation of `f32` at a value with binary exponent `e` whose significand rounds to
`m`. -/
theorem f32_eq (q : ℚ) (e m : ℤ) (h1 : (2 : ℚ) ^ e ≤ q) (h2 : q < 2 ^ (e + 1))
    (h3 : (m : ℚ) - 1 / 2 < q / 2 ^ (e - 23)) (h4 : q / 2 ^ (e - 23) < (m : ℚ) + 1 / 2) :
    f32 q = m * 2 ^ (e - 23) := by
  have hq : 0 < q := lt_of_lt_of_le (by positivity) h1
  have hl : Int.log 2 q = e := by
    have a1 : e ≤ Int.log 2 q := by
      rw [← Int.zpow_le_iff_le_log (by norm_num) hq, Nat.cast_ofNat]; exact h1
    have a2 : Int.log 2 q < e + 1 := by
      rw [← Int.lt_zpow_iff_log_lt (by norm_num) hq, Nat.cast_ofNat]; exact h2
    omega
  unfold f32
  rw [if_neg hq.ne', abs_of_pos hq, hl, roundNE_eq _ m h3 h4]

theorem rounding_f32 : Rounding f32 := ⟨f32_err, f32_natCast⟩

theorem rounding_id : Rounding id :=
  ⟨fun q hq => by simp only [id, sub_self, abs_zero]; positivity, fun _ _ => rfl⟩

theorem Rounding.lo {rnd : ℚ → ℚ} (hr : Rounding rnd) {q : ℚ} (hq : 0 < q) :
    q * (1 - 1 / 16777216) ≤ rnd q := by
  have h := hr.err q hq
  rw [abs_le] at h
  norm_num at h ⊢
  linarith [h.1]

theorem Rounding.hi {rnd : ℚ → ℚ} (hr : Rounding rnd) {q : ℚ} (hq : 0 < q) :
    rnd q ≤ q * (1 + 1 / 16777216) := by
  have h := hr.err q hq
  rw [abs_le] at h
  norm_num at h ⊢
  linarith [h.2]

theorem Rounding.pos {rnd : ℚ → ℚ} (hr : Rounding rnd) {q : ℚ} (hq : 0 < q) : 0 < rnd q := by
  have := hr.lo hq
  have h2 : 0 < q * (1 - 1 / 16777216) := by positivity
  linarith

theorem Rounding.natCast {rnd : ℚ → ℚ} (hr : Rounding rnd) (n : ℕ) (hn : n < 2 ^ 20) :
    rnd (n : ℚ) = n :=
  hr.nat n (lt_trans hn (by norm_num))

theorem round_near (a b : ℚ) (h1 : a < b + 1) (h2 : b < a + 1) :
    |round a - round b| ≤ 1 := by
  have ra := abs_sub_round a
  have rb := abs_sub_round b
  rw [abs_le] at ra rb
  have e1 : ((round a - round b : ℤ) : ℚ) < ((2 : ℤ) : ℚ) := by push_cast; linarith
  have e2 : ((-2 : ℤ) : ℚ) < ((round a - round b : ℤ) : ℚ) := by push_cast; linarith
  have e1' := Int.cast_lt.1 e1
  have e2' := Int.cast_lt.1 e2
  rw [abs_le]
  constructor <;> omega

/-! ## Target dimensions in exact arithmetic -/

theorem scaleOf_id (w h maxW maxH : Nat) :
    scaleOf id w h maxW maxH = min ((maxW : ℚ) / w) ((maxH : ℚ) / h) := rfl

theorem scaleOf_pos (w h maxW maxH : Nat) (hw : 0 < w) (hh : 0 < h) (hmw : 0 < maxW)
    (hmh : 0 < maxH) : 0 < scaleOf id w h maxW maxH := by
  rw [scaleOf_id]
  have h1 : (0 : ℚ) < (maxW : ℚ) / w := by positivity
  have h2 : (0 : ℚ) < (maxH : ℚ) / h := by positivity
  exact lt_min h1 h2

theorem width_mul_scaleOf_le (w h maxW maxH : Nat) :
    (w : ℚ) * scaleOf id w h maxW maxH ≤ maxW := by
  rw [scaleOf_id]
  calc (w : ℚ) * min ((maxW : ℚ) / w) ((maxH : ℚ) / h)
      ≤ (w : ℚ) * ((maxW : ℚ) / w) :=
        mul_le_mul_of_nonneg_left (min_le_left _ _) (by positivity)
    _ ≤ maxW := by
        rcases Nat.eq_zero_or_pos w with h0 | h0
        · subst h0; simp
        · have : (w : ℚ) ≠ 0 := by positivity
          rw [mul_div_cancel₀ _ this]

theorem height_mul_scaleOf_le (w h maxW maxH : Nat) :
    (h : ℚ) * scaleOf id w h maxW maxH ≤ maxH := by
  rw [scaleOf_id]
  calc (h : ℚ) * min ((maxW : ℚ) / w) ((maxH : ℚ) / h)
      ≤ (h : ℚ) * ((maxH : ℚ) / h) :=
        mul_le_mul_of_nonneg_left (min_le_right _ _) (by positivity)
    _ ≤ maxH := by
        rcases Nat.eq_zero_or_pos h with h0 | h0
        · subst h0; simp
        · have : (h : ℚ) ≠ 0 := by positivity
          rw [mul_div_cancel₀ _ this]

/-- When scaling is required the new dimensions are the floors of the rounded scaled
sides. -/
theorem newDims_scaling (rnd : ℚ → ℚ) (w h maxW maxH : Nat) (hreq : w > maxW ∨ h > maxH) :
    newDims rnd w h maxW maxH
      = (⌊rnd (rnd (w : ℚ) * scaleOf rnd w h maxW maxH)⌋₊,
         ⌊rnd (rnd (h : ℚ) * scaleOf rnd w h maxW maxH)⌋₊) := by
  unfold newDims toInt
  rw [if_pos hreq]

/-- The resampling step reports the dimensions `newDims f32`. -/
theorem resample_dims (w h channels : Nat) (img : List Nat) (maxW maxH : Nat)
    (malloc_ok : Bool) (s : Scaled) (hs : resample w h channels img maxW maxH malloc_ok = some s) :
    (s.new_width, s.new_height) = newDims f32 w h maxW maxH := by
  unfold resample at hs
  unfold newDims
  by_cases hreq : w > maxW ∨ h > maxH
  · rw [if_pos hreq] at hs
    rw [if_pos hreq]
    cases malloc_ok
    · simp at hs
    · simp only [if_true, Option.some.injEq] at hs
      rw [← hs]
  · rw [if_neg hreq, Option.some.injEq] at hs
    rw [if_neg hreq, ← hs]

theorem floor_mul_div (a b c : Nat) : ⌊(a : ℚ) * ((b : ℚ) / c)⌋₊ = a * b / c := by
  rw [← mul_div_assoc, ← Nat.cast_mul, Nat.floor_div_eq_div]

/-- The image dimensions in exact arithmetic, when scaling is required, as integer
divisions. -/
theorem newDims_nat (w h maxW maxH : Nat) (hw : 0 < w) (hh : 0 < h)
    (hreq : w > maxW ∨ h > maxH) :
    newDims id w h maxW maxH
      = if maxW * h ≤ maxH * w then (maxW, h * maxW / w) else (w * maxH / h, maxH) := by
  unfold newDims toInt scaleOf
  simp only [id]
  rw [if_pos hreq]
  have hwq : (0 : ℚ) < w := by exact_mod_cast hw
  have hhq : (0 : ℚ) < h := by exact_mod_cast hh
  have hiff : (maxW : ℚ) / w ≤ (maxH : ℚ) / h ↔ maxW * h ≤ maxH * w := by
    rw [div_le_div_iff₀ hwq hhq]
    exact_mod_cast Iff.rfl
  by_cases hc : maxW * h ≤ maxH * w
  · rw [if_pos hc, min_eq_left (hiff.2 hc)]
    simp only [floor_mul_div]
    rw [Nat.mul_div_cancel_left _ hw]
  · rw [if_neg hc, min_eq_right (le_of_lt (not_le.1 (fun hle => hc (hiff.1 hle))))]
    simp only [floor_mul_div]
    rw [Nat.mul_div_cancel_left _ hh]

theorem newDims_id_100_3 : newDims id 100 3 60 140 = (60, 1) := by
  rw [newDims_nat 100 3 60 140 (by decide) (by decide) (by decide)]
  decide

/-- C4: when scaling is required (`w > maxW` or `h > maxH`), the dimensions the resampler
computes, `newW = ⌊w * scale⌋` and `newH = ⌊h * scale⌋` with
`scale = min (maxW / w) (maxH / h)` an exact rational, satisfy `newW ≤ maxW` and
`newH ≤ maxH`. -/
theorem newDims_le_box (w h maxW maxH : Nat) (hreq : w > maxW ∨ h > maxH) :
    newDims id w h maxW maxH
      = (⌊(w : ℚ) * min ((maxW : ℚ) / w) ((maxH : ℚ) / h)⌋₊,
         ⌊(h : ℚ) * min ((maxW : ℚ) / w) ((maxH : ℚ) / h)⌋₊) ∧
    (newDims id w h maxW maxH).1 ≤ maxW ∧ (newDims id w h maxW maxH).2 ≤ maxH := by
  have hd : newDims id w h maxW maxH
      = (⌊(w : ℚ) * scaleOf id w h maxW maxH⌋₊, ⌊(h : ℚ) * scaleOf id w h maxW maxH⌋₊) :=
    newDims_scaling id w h maxW maxH hreq
  refine ⟨hd, ?_, ?_⟩
  · rw [hd]
    exact Nat.floor_le_of_le (width_mul_scaleOf_le w h maxW maxH)
  · rw [hd]
    exact Nat.floor_le_of_le (height_mul_scaleOf_le w h maxW maxH)

theorem newDims_le_box_witness :
    (100 > 60 ∨ 3 > 140) ∧ (newDims id 100 3 60 140).1 ≤ 60 ∧
      (newDims id 100 3 60 140).2 ≤ 140 :=
  ⟨by decide, (newDims_le_box 100 3 60 140 (by decide)).2⟩

/-! ## Target dimensions in rounded arithmetic -/

/-- The sides of the scaled image before truncation, `A = rnd (w * scale)` and
`B = rnd (h * scale)`, against the exact candidates `maxW`, `maxH * w / h` for the width and
`maxW * h / w`, `maxH` for the height. -/
theorem scaled_sides_bounds {rnd : ℚ → ℚ} (hr : Rounding rnd) (w h mw mh : ℕ)
    (hw : 0 < w) (hh : 0 < h) (hmw : 0 < mw) (hmh : 0 < mh)
    (bw : w < 2 ^ 20) (bh : h < 2 ^ 20) (bmw : mw < 2 ^ 20) (bmh : mh < 2 ^ 20) :
    let s := scaleOf rnd w h mw mh
    let A := rnd (rnd (w : ℚ) * s)
    let B := rnd (rnd (h : ℚ) * s)
    let U : ℚ := (mw : ℚ) * h / w
    let V : ℚ := (mh : ℚ) * w / h
    0 < s ∧ s ≤ (mw : ℚ) / w * (1 + 1 / 16777216) ∧ s ≤ (mh : ℚ) / h * (1 + 1 / 16777216) ∧
    0 < A ∧ 0 < B ∧
    (w * s * (1 - 1 / 16777216) ≤ A ∧ A ≤ w * s * (1 + 1 / 16777216)) ∧
    (h * s * (1 - 1 / 16777216) ≤ B ∧ B ≤ h * s * (1 + 1 / 16777216)) ∧
    (w * s ≤ mw * (1 + 1 / 16777216) ∧ h * s ≤ mh * (1 + 1 / 16777216)) ∧
    A ≤ mw * (1 + 3 / 16777216) ∧ A ≤ V * (1 + 3 / 16777216) ∧
    B ≤ U * (1 + 3 / 16777216) ∧ B ≤ mh * (1 + 3 / 16777216) ∧
    ((mw * (1 - 2 / 16777216) ≤ A ∧ U * (1 - 2 / 16777216) ≤ B) ∨
     (V * (1 - 2 / 16777216) ≤ A ∧ mh * (1 - 2 / 16777216) ≤ B)) := by
  intro s A B U V
  have hW : (0 : ℚ) < w := by exact_mod_cast hw
  have hH : (0 : ℚ) < h := by exact_mod_cast hh
  have hMW : (0 : ℚ) < mw := by exact_mod_cast hmw
  have hMH : (0 : ℚ) < mh := by exact_mod_cast hmh
  have ha : (0 : ℚ) < (mw : ℚ) / w := by positivity
  have hb : (0 : ℚ) < (mh : ℚ) / h := by positivity
  have hs : s = min (rnd ((mw : ℚ) / w)) (rnd ((mh : ℚ) / h)) := by
    show scaleOf rnd w h mw mh = _
    unfold scaleOf
    rw [hr.natCast w bw, hr.natCast h bh, hr.natCast mw bmw, hr.natCast mh bmh]
  have hA : A = rnd ((w : ℚ) * s) := by
    show rnd (rnd (w : ℚ) * s) = _
    rw [hr.natCast w bw]
  have hB : B = rnd ((h : ℚ) * s) := by
    show rnd (rnd (h : ℚ) * s) = _
    rw [hr.natCast h bh]
  have ra1 := hr.lo ha
  have ra2 := hr.hi ha
  have rb1 := hr.lo hb
  have rb2 := hr.hi hb
  have rap := hr.pos ha
  have rbp := hr.pos hb
  have hspos : 0 < s := by rw [hs]; exact lt_min rap rbp
  have hsa : s ≤ (mw : ℚ) / w * (1 + 1 / 16777216) := by
    rw [hs]; exact le_trans (min_le_left _ _) ra2
  have hsb : s ≤ (mh : ℚ) / h * (1 + 1 / 16777216) := by
    rw [hs]; exact le_trans (min_le_right _ _) rb2
  have hws : (0 : ℚ) < w * s := by positivity
  have hhs : (0 : ℚ) < h * s := by positivity
  have A1 := hr.lo hws
  have A2 := hr.hi hws
  have B1 := hr.lo hhs
  have B2 := hr.hi hhs
  rw [← hA] at A1 A2
  rw [← hB] at B1 B2
  have eWa : (w : ℚ) * ((mw : ℚ) / w) = mw := by field_simp
  have eWb : (w : ℚ) * ((mh : ℚ) / h) = V := by
    show _ = (mh : ℚ) * w / h
    field_simp; ring
  have eHa : (h : ℚ) * ((mw : ℚ) / w) = U := by
    show _ = (mw : ℚ) * h / w
    field_simp; ring
  have eHb : (h : ℚ) * ((mh : ℚ) / h) = mh := by field_simp
  have hU : 0 < U := by show (0 : ℚ) < (mw : ℚ) * h / w; positivity
  have hV : 0 < V := by show (0 : ℚ) < (mh : ℚ) * w / h; positivity
  have ws1 : (w : ℚ) * s ≤ mw * (1 + 1 / 16777216) := by
    have := mul_le_mul_of_nonneg_left hsa hW.le
    rw [← mul_assoc, eWa] at this; exact this
  have ws2 : (w : ℚ) * s ≤ V * (1 + 1 / 16777216) := by
    have := mul_le_mul_of_nonneg_left hsb hW.le
    rw [← mul_assoc, eWb] at this; exact this
  have hs1 : (h : ℚ) * s ≤ U * (1 + 1 / 16777216) := by
    have := mul_le_mul_of_nonneg_left hsa hH.le
    rw [← mul_assoc, eHa] at this; exact this
  have hs2 : (h : ℚ) * s ≤ mh * (1 + 1 / 16777216) := by
    have := mul_le_mul_of_nonneg_left hsb hH.le
    rw [← mul_assoc, eHb] at this; exact this
  refine ⟨hspos, hsa, hsb, by rw [hA]; exact hr.pos hws, by rw [hB]; exact hr.pos hhs,
    ⟨A1, A2⟩, ⟨B1, B2⟩, ⟨ws1, hs2⟩,
    by linarith, by linarith, by linarith, by linarith, ?_⟩
  rcases min_choice (rnd ((mw : ℚ) / w)) (rnd ((mh : ℚ) / h)) with hc | hc
  · left
    rw [← hs] at hc
    have l1 : (mw : ℚ) * (1 - 1 / 16777216) ≤ w * s := by
      have := mul_le_mul_of_nonneg_left ra1 hW.le
      rw [← mul_assoc, eWa, ← hc] at this; exact this
    have l2 : U * (1 - 1 / 16777216) ≤ h * s := by
      have := mul_le_mul_of_nonneg_left ra1 hH.le
      rw [← mul_assoc, eHa, ← hc] at this; exact this
    constructor <;> linarith
  · right
    rw [← hs] at hc
    have l1 : V * (1 - 1 / 16777216) ≤ w * s := by
      have := mul_le_mul_of_nonneg_left rb1 hW.le
      rw [← mul_assoc, eWb, ← hc] at this; exact this
    have l2 : (mh : ℚ) * (1 - 1 / 16777216) ≤ h * s := by
      have := mul_le_mul_of_nonneg_left rb1 hH.le
      rw [← mul_assoc, eHb, ← hc] at this; exact this
    constructor <;> linarith

/-- What the scaled dimensions satisfy in any rounded arithmetic, for sizes below `2^20`:
they fit the box, one of them fills its side of the box to within one pixel, the aspect
ratio is kept up to `|outW * h - outH * w| < w + h`, and the rounded ratios agree to within
1 once `w + h ≤ outH * h`. -/
theorem newDims_scaled_props {rnd : ℚ → ℚ} (hr : Rounding rnd) (w h maxW maxH : ℕ)
    (hw : 0 < w) (hh : 0 < h) (hmw : 0 < maxW) (hmh : 0 < maxH)
    (bw : w < 2 ^ 20) (bh : h < 2 ^ 20) (bmw : maxW < 2 ^ 20) (bmh : maxH < 2 ^ 20)
    (hreq : w > maxW ∨ h > maxH) :
    ((newDims rnd w h maxW maxH).1 ≤ maxW ∧ (newDims rnd w h maxW maxH).2 ≤ maxH) ∧
    (maxW ≤ (newDims rnd w h maxW maxH).1 + 1 ∨ maxH ≤ (newDims rnd w h maxW maxH).2 + 1) ∧
    ((newDims rnd w h maxW maxH).1 * h < (newDims rnd w h maxW maxH).2 * w + w + h ∧
     (newDims rnd w h maxW maxH).2 * w < (newDims rnd w h maxW maxH).1 * h + w + h) ∧
    (w + h ≤ (newDims rnd w h maxW maxH).2 * h →
      aspectRoundPreserved w h (newDims rnd w h maxW maxH).1 (newDims rnd w h maxW maxH).2) := by
  rw [newDims_scaling rnd w h maxW maxH hreq]
  obtain ⟨hs, -, -, hA0, hB0, ⟨A1, A2⟩, ⟨B1, B2⟩, ⟨ws1, hs2⟩, Amw, -, -, Bmh, hlow⟩ :=
    scaled_sides_bounds hr w h maxW maxH hw hh hmw hmh bw bh bmw bmh
  set s := scaleOf rnd w h maxW maxH with hsdef
  set A := rnd (rnd (w : ℚ) * s) with hAdef
  set B := rnd (rnd (h : ℚ) * s) with hBdef
  have hW : (0 : ℚ) < w := by exact_mod_cast hw
  have hH : (0 : ℚ) < h := by exact_mod_cast hh
  have cW : (w : ℚ) < 1048576 := by exact_mod_cast bw
  have cH : (h : ℚ) < 1048576 := by exact_mod_cast bh
  have cMW : (maxW : ℚ) < 1048576 := by exact_mod_cast bmw
  have cMH : (maxH : ℚ) < 1048576 := by exact_mod_cast bmh
  have fA1 : ((⌊A⌋₊ : ℕ) : ℚ) ≤ A := Nat.floor_le hA0.le
  have fA2 : A < (⌊A⌋₊ : ℕ) + 1 := Nat.lt_floor_add_one A
  have fB1 : ((⌊B⌋₊ : ℕ) : ℚ) ≤ B := Nat.floor_le hB0.le
  have fB2 : B < (⌊B⌋₊ : ℕ) + 1 := Nat.lt_floor_add_one B
  have z1 : ((⌊A⌋₊ : ℕ) : ℚ) * h ≤ w * s * h * (1 + 1 / 16777216) := by
    have := mul_le_mul_of_nonneg_right (le_trans fA1 A2) hH.le
    linarith
  have z2 : (w : ℚ) * s * h * (1 - 1 / 16777216) < (((⌊B⌋₊ : ℕ) : ℚ) + 1) * w := by
    have := mul_lt_mul_of_pos_right (lt_of_le_of_lt B1 fB2) hW
    linarith
  have z3 : ((⌊B⌋₊ : ℕ) : ℚ) * w ≤ w * s * h * (1 + 1 / 16777216) := by
    have := mul_le_mul_of_nonneg_right (le_trans fB1 B2) hW.le
    linarith
  have z4 : (w : ℚ) * s * h * (1 - 1 / 16777216) < (((⌊A⌋₊ : ℕ) : ℚ) + 1) * h := by
    have := mul_lt_mul_of_pos_right (lt_of_le_of_lt A1 fA2) hH
    linarith
  have z5 : (w : ℚ) * s * h ≤ 1048577 * h := by
    have h1 := mul_le_mul_of_nonneg_right ws1 hH.le
    have h2 : (maxW : ℚ) * (1 + 1 / 16777216) * h ≤ 1048577 * h :=
      mul_le_mul_of_nonneg_right (by linarith) hH.le
    linarith
  have z6 : (w : ℚ) * s * h ≤ 1048577 * w := by
    have h1 := mul_le_mul_of_nonneg_right hs2 hW.le
    have h2 : (maxH : ℚ) * (1 + 1 / 16777216) * w ≤ 1048577 * w :=
      mul_le_mul_of_nonneg_right (by linarith) hW.le
    linarith
  have c1 : ((⌊A⌋₊ : ℕ) : ℚ) * h < (⌊B⌋₊ : ℕ) * w + w + h := by linarith
  have c2 : ((⌊B⌋₊ : ℕ) : ℚ) * w < (⌊A⌋₊ : ℕ) * h + w + h := by linarith
  have c1n : ⌊A⌋₊ * h < ⌊B⌋₊ * w + w + h := by exact_mod_cast c1
  have c2n : ⌊B⌋₊ * w < ⌊A⌋₊ * h + w + h := by exact_mod_cast c2
  refine ⟨⟨?_, ?_⟩, ?_, ⟨c1n, c2n⟩, ?_⟩
  · have : A < ((maxW + 1 : ℕ) : ℚ) := by push_cast; linarith
    exact Nat.lt_succ_iff.1 ((Nat.floor_lt hA0.le).2 this)
  · have : B < ((maxH + 1 : ℕ) : ℚ) := by push_cast; linarith
    exact Nat.lt_succ_iff.1 ((Nat.floor_lt hB0.le).2 this)
  · rcases hlow with ⟨l, -⟩ | ⟨-, l⟩
    · left
      have : (maxW : ℚ) < ((⌊A⌋₊ + 2 : ℕ) : ℚ) := by push_cast; linarith
      have := Nat.cast_lt.1 this
      omega
    · right
      have : (maxH : ℚ) < ((⌊B⌋₊ + 2 : ℕ) : ℚ) := by push_cast; linarith
      have := Nat.cast_lt.1 this
      omega
  · intro hside
    have hB1 : 0 < ⌊B⌋₊ := by
      rcases Nat.eq_zero_or_pos ⌊B⌋₊ with h0 | h0
      · rw [h0] at hside; omega
      · exact h0
    have hBq : (0 : ℚ) < (⌊B⌋₊ : ℕ) := by exact_mod_cast hB1
    have hsq : (w : ℚ) + h ≤ (⌊B⌋₊ : ℕ) * h := by exact_mod_cast hside
    refine ⟨hB1.ne', round_near _ _ ?_ ?_⟩
    · rw [div_lt_iff₀ hBq, add_mul, div_mul_eq_mul_div, ← sub_lt_iff_lt_add, lt_div_iff₀ hH]
      linarith
    · rw [div_lt_iff₀ hH, add_mul, div_mul_eq_mul_div, ← sub_lt_iff_lt_add, lt_div_iff₀ hBq]
      linarith

/-- Evaluation of `newDims f32` from the values of its four roundings. -/
theorem newDims_f32_eval (w h mw mh : ℕ) (ra rb s A B : ℚ) (hreq : w > mw ∨ h > mh)
    (bw : w < 2 ^ 24) (bh : h < 2 ^ 24) (bmw : mw < 2 ^ 24) (bmh : mh < 2 ^ 24)
    (h1 : f32 ((mw : ℚ) / w) = ra) (h2 : f32 ((mh : ℚ) / h) = rb) (hs : min ra rb = s)
    (h3 : f32 ((w : ℚ) * s) = A) (h4 : f32 ((h : ℚ) * s) = B) :
    newDims f32 w h mw mh = (⌊A⌋₊, ⌊B⌋₊) := by
  unfold newDims toInt scaleOf
  rw [if_pos hreq, f32_natCast w bw, f32_natCast h bh, f32_natCast mw bmw, f32_natCast mh bmh,
    h1, h2, hs]
  dsimp only
  rw [h3, h4]

/-- In the arithmetic of the code a 100x3 image in a 60x140 box becomes 60x1. -/
theorem newDims_f32_100_3 : newDims f32 100 3 60 140 = (60, 1) := by
  have h1 : f32 (((60 : ℕ) : ℚ) / ((100 : ℕ) : ℚ)) = 5033165 / 8388608 := by
    rw [f32_eq _ (-1) 10066330 (by norm_num) (by norm_num) (by norm_num) (by norm_num)]
    norm_num
  have h2 : f32 (((140 : ℕ) : ℚ) / ((3 : ℕ) : ℚ)) = 12233387 / 262144 := by
    rw [f32_eq _ 5 12233387 (by norm_num) (by norm_num) (by norm_num) (by norm_num)]
    norm_num
  have hs : min (5033165 / 8388608 : ℚ) (12233387 / 262144) = 5033165 / 8388608 := by norm_num
  have h3 : f32 (((100 : ℕ) : ℚ) * (5033165 / 8388608)) = 15728641 / 262144 := by
    rw [f32_eq _ 5 15728641 (by norm_num) (by norm_num) (by norm_num) (by norm_num)]
    norm_num
  have h4 : f32 (((3 : ℕ) : ℚ) * (5033165 / 8388608)) = 15099495 / 8388608 := by
    rw [f32_eq _ 0 15099495 (by norm_num) (by norm_num) (by norm_num) (by norm_num)]
    norm_num
  rw [newDims_f32_eval 100 3 60 140 _ _ _ _ _ (by decide) (by norm_num) (by norm_num)
    (by norm_num) (by norm_num) h1 h2 hs h3 h4]
  have f1 : ⌊(15728641 / 262144 : ℚ)⌋₊ = 60 := by
    rw [Nat.floor_eq_iff (by norm_num)]; norm_num
  have f2 : ⌊(15099495 / 8388608 : ℚ)⌋₊ = 1 := by
    rw [Nat.floor_eq_iff (by norm_num)]; norm_num
  rw [f1, f2]

/-- In the arithmetic of the code a 1000x1 image in a 600x140 box becomes 600x0. -/
theorem newDims_f32_1000_1 : newDims f32 1000 1 600 140 = (600, 0) := by
  have h1 : f32 (((600 : ℕ) : ℚ) / ((1000 : ℕ) : ℚ)) = 5033165 / 8388608 := by
    rw [f32_eq _ (-1) 10066330 (by norm_num) (by norm_num) (by norm_num) (by norm_num)]
    norm_num
  have h2 : f32 (((140 : ℕ) : ℚ) / ((1 : ℕ) : ℚ)) = 140 := by
    rw [f32_eq _ 7 9175040 (by norm_num) (by norm_num) (by norm_num) (by norm_num)]
    norm_num
  have hs : min (5033165 / 8388608 : ℚ) (140) = 5033165 / 8388608 := by norm_num
  have h3 : f32 (((1000 : ℕ) : ℚ) * (5033165 / 8388608)) = 600 := by
    rw [f32_eq _ 9 9830400 (by norm_num) (by norm_num) (by norm_num) (by norm_num)]
    norm_num
  have h4 : f32 (((1 : ℕ) : ℚ) * (5033165 / 8388608)) = 5033165 / 8388608 := by
    rw [f32_eq _ (-1) 10066330 (by norm_num) (by norm_num) (by norm_num) (by norm_num)]
    norm_num
  rw [newDims_f32_eval 1000 1 600 140 _ _ _ _ _ (by decide) (by norm_num) (by norm_num)
    (by norm_num) (by norm_num) h1 h2 hs h3 h4]
  have f1 : ⌊(600 : ℚ)⌋₊ = 600 := by
    rw [Nat.floor_eq_iff (by norm_num)]; norm_num
  have f2 : ⌊(5033165 / 8388608 : ℚ)⌋₊ = 0 := by
    rw [Nat.floor_eq_iff (by norm_num)]; norm_num
  rw [f1, f2]

/-- In the arithmetic of the code a 1080x1350 image in a 600x140 box becomes 111x140
(112x140 in exact arithmetic). -/
theorem newDims_f32_1080_1350 : newDims f32 1080 1350 600 140 = (111, 140) := by
  have h1 : f32 (((600 : ℕ) : ℚ) / ((1080 : ℕ) : ℚ)) = 2330169 / 4194304 := by
    rw [f32_eq _ (-1) 9320676 (by norm_num) (by norm_num) (by norm_num) (by norm_num)]
    norm_num
  have h2 : f32 (((140 : ℕ) : ℚ) / ((1350 : ℕ) : ℚ)) = 13918875 / 134217728 := by
    rw [f32_eq _ (-4) 13918875 (by norm_num) (by norm_num) (by norm_num) (by norm_num)]
    norm_num
  have hs : min (2330169 / 4194304 : ℚ) (13918875 / 134217728) = 13918875 / 134217728 := by norm_num
  have h3 : f32 (((1080 : ℕ) : ℚ) * (13918875 / 134217728)) = 14680063 / 131072 := by
    rw [f32_eq _ 6 14680063 (by norm_num) (by norm_num) (by norm_num) (by norm_num)]
    norm_num
  have h4 : f32 (((1350 : ℕ) : ℚ) * (13918875 / 134217728)) = 140 := by
    rw [f32_eq _ 7 9175040 (by norm_num) (by norm_num) (by norm_num) (by norm_num)]
    norm_num
  rw [newDims_f32_eval 1080 1350 600 140 _ _ _ _ _ (by decide) (by norm_num) (by norm_num)
    (by norm_num) (by norm_num) h1 h2 hs h3 h4]
  have f1 : ⌊(14680063 / 131072 : ℚ)⌋₊ = 111 := by
    rw [Nat.floor_eq_iff (by norm_num)]; norm_num
  have f2 : ⌊(140 : ℚ)⌋₊ = 140 := by
    rw [Nat.floor_eq_iff (by norm_num)]; norm_num
  rw [f1, f2]

/-- At a tie `roundNE` picks the even neighbour. -/
theorem roundNE_tie (t : ℚ) (f : ℤ) (h : t = f + 1 / 2) :
    roundNE t = if f % 2 = 0 then f else f + 1 := by
  have hf : ⌊t⌋ = f := by
    rw [Int.floor_eq_iff, h]
    constructor <;> linarith
  unfold roundNE
  rw [hf, h]
  rw [if_neg (by norm_num), if_neg (by norm_num)]

/-- Evaluation of `f32` at a value whose significand is half-way between two integers. -/
theorem f32_eq_tie (q : ℚ) (e f : ℤ) (h1 : (2 : ℚ) ^ e ≤ q) (h2 : q < 2 ^ (e + 1))
    (h3 : q / 2 ^ (e - 23) = (f : ℚ) + 1 / 2) :
    f32 q = ((if f % 2 = 0 then f else f + 1 : ℤ) : ℚ) * 2 ^ (e - 23) := by
  have hq : 0 < q := lt_of_lt_of_le (by positivity) h1
  have hl : Int.log 2 q = e := by
    have a1 : e ≤ Int.log 2 q := by
      rw [← Int.zpow_le_iff_le_log (by norm_num) hq, Nat.cast_ofNat]; exact h1
    have a2 : Int.log 2 q < e + 1 := by
      rw [← Int.lt_zpow_iff_log_lt (by norm_num) hq, Nat.cast_ofNat]; exact h2
    omega
  unfold f32
  rw [if_neg hq.ne', abs_of_pos hq, hl, roundNE_tie _ f h3]

/-- In the arithmetic of the code a 1127x3 image in a 600x140 box becomes 599x1 (600x1 in
exact arithmetic); the rounding of `3 * scale` is a tie. -/
theorem newDims_f32_1127_3 : newDims f32 1127 3 600 140 = (599, 1) := by
  have h1 : f32 (((600 : ℕ) : ℚ) / ((1127 : ℕ) : ℚ)) = 8931969 / 16777216 := by
    rw [f32_eq _ (-1) 8931969 (by norm_num) (by norm_num) (by norm_num) (by norm_num)]
    norm_num
  have h2 : f32 (((140 : ℕ) : ℚ) / ((3 : ℕ) : ℚ)) = 12233387 / 262144 := by
    rw [f32_eq _ 5 12233387 (by norm_num) (by norm_num) (by norm_num) (by norm_num)]
    norm_num
  have hs : min (8931969 / 16777216 : ℚ) (12233387 / 262144) = 8931969 / 16777216 := by norm_num
  have h3 : f32 (((1127 : ℕ) : ℚ) * (8931969 / 16777216)) = 9830399 / 16384 := by
    rw [f32_eq _ 9 9830399 (by norm_num) (by norm_num) (by norm_num) (by norm_num)]
    norm_num
  have h4 : f32 (((3 : ℕ) : ℚ) * (8931969 / 16777216)) = 6698977 / 4194304 := by
    rw [f32_eq_tie _ 0 13397953 (by norm_num) (by norm_num) (by norm_num)]
    norm_num
  rw [newDims_f32_eval 1127 3 600 140 _ _ _ _ _ (by decide) (by norm_num) (by norm_num)
    (by norm_num) (by norm_num) h1 h2 hs h3 h4]
  have f1 : ⌊(9830399 / 16384 : ℚ)⌋₊ = 599 := by
    rw [Nat.floor_eq_iff (by norm_num)]; norm_num
  have f2 : ⌊(6698977 / 4194304 : ℚ)⌋₊ = 1 := by
    rw [Nat.floor_eq_iff (by norm_num)]; norm_num
  rw [f1, f2]

/-- Column 9 of the 60-wide scaled copy of a 100x3 image samples source column 14 in the
arithmetic of the code, and column 15 in exact arithmetic. -/
theorem srcCoord_f32_column_9 :
    srcCoord f32 (scaleOf f32 100 3 60 140) 9 = 14 ∧
    srcCoord id (scaleOf id 100 3 60 140) 9 = 15 := by
  have h1 : f32 (((60 : ℕ) : ℚ) / ((100 : ℕ) : ℚ)) = 5033165 / 8388608 := by
    rw [f32_eq _ (-1) 10066330 (by norm_num) (by norm_num) (by norm_num) (by norm_num)]
    norm_num
  have h2 : f32 (((140 : ℕ) : ℚ) / ((3 : ℕ) : ℚ)) = 12233387 / 262144 := by
    rw [f32_eq _ 5 12233387 (by norm_num) (by norm_num) (by norm_num) (by norm_num)]
    norm_num
  have hs : min (5033165 / 8388608 : ℚ) (12233387 / 262144) = 5033165 / 8388608 := by norm_num
  have h3 : f32 (((9 : ℕ) : ℚ) / (5033165 / 8388608)) = 15728639 / 1048576 := by
    rw [f32_eq _ 3 15728639 (by norm_num) (by norm_num) (by norm_num) (by norm_num)]
    norm_num
  have f1 : ⌊(15728639 / 1048576 : ℚ)⌋₊ = 14 := by
    rw [Nat.floor_eq_iff (by norm_num)]; norm_num
  constructor
  · unfold srcCoord toInt scaleOf
    rw [f32_natCast 100 (by norm_num), f32_natCast 3 (by norm_num), f32_natCast 60 (by norm_num),
      f32_natCast 140 (by norm_num), f32_natCast 9 (by norm_num), h1, h2, hs, h3, f1]
  · unfold srcCoord toInt scaleOf
    simp only [id]
    rw [Nat.floor_eq_iff (by positivity)]
    norm_num

/-- C5 as stated fails on the code. A 100x3 source in a 60x140 box becomes 60x1, and
`round (60 / 1) = 60` is 27 away from `round (100 / 3) = 33`; a 1000x1 source in a
600x140 box becomes 600x0, so the output height is zero. -/
theorem newDims_aspect_round_fails :
    newDims f32 100 3 60 140 = (60, 1) ∧
    ¬ aspectRoundPreserved 100 3 (newDims f32 100 3 60 140).1 (newDims f32 100 3 60 140).2 ∧
    newDims f32 1000 1 600 140 = (600, 0) ∧
    ¬ aspectRoundPreserved 1000 1 (newDims f32 1000 1 600 140).1
        (newDims f32 1000 1 600 140).2 := by
  have r1 : round ((100 : ℚ) / 3) = 33 := by
    rw [round_eq, Int.floor_eq_iff]
    norm_num
  have r2 : round ((60 : ℚ) / 1) = 60 := by
    rw [round_eq, Int.floor_eq_iff]
    norm_num
  refine ⟨newDims_f32_100_3, ?_, newDims_f32_1000_1, ?_⟩
  · rw [newDims_f32_100_3]
    rintro ⟨-, hab⟩
    simp only [Nat.cast_ofNat, Nat.cast_one] at hab
    rw [r1, r2] at hab
    norm_num at hab
  · rw [newDims_f32_1000_1]
    rintro ⟨h0, -⟩
    exact h0 rfl

/-- C5, amended: for positive `w`, `h`, `maxW`, `maxH` below `2^20` with scaling required,
the output dimensions the code computes in single precision,
`outW = ⌊f32 (w * scale)⌋` and `outH = ⌊f32 (h * scale)⌋` with
`scale = min (f32 (maxW / w)) (f32 (maxH / h))`, fit the box, fill one side of it to within
one pixel, and keep the aspect ratio in the sense that `|outW * h - outH * w| < w + h`;
whenever `w + h ≤ outH * h`, `outH` is non-zero and `round (outW / outH)` differs from
`round (w / h)` by at most 1. -/
theorem newDims_aspect (w h maxW maxH : Nat) (hw : 0 < w) (hh : 0 < h) (hmw : 0 < maxW)
    (hmh : 0 < maxH) (bw : w < 2 ^ 20) (bh : h < 2 ^ 20) (bmw : maxW < 2 ^ 20)
    (bmh : maxH < 2 ^ 20) (hreq : w > maxW ∨ h > maxH) :
    newDims f32 w h maxW maxH
      = (⌊f32 ((w : ℚ) * min (f32 ((maxW : ℚ) / w)) (f32 ((maxH : ℚ) / h)))⌋₊,
         ⌊f32 ((h : ℚ) * min (f32 ((maxW : ℚ) / w)) (f32 ((maxH : ℚ) / h)))⌋₊) ∧
    ((newDims f32 w h maxW maxH).1 ≤ maxW ∧ (newDims f32 w h maxW maxH).2 ≤ maxH) ∧
    (maxW ≤ (newDims f32 w h maxW maxH).1 + 1 ∨ maxH ≤ (newDims f32 w h maxW maxH).2 + 1) ∧
    ((newDims f32 w h maxW maxH).1 * h < (newDims f32 w h maxW maxH).2 * w + w + h ∧
     (newDims f32 w h maxW maxH).2 * w < (newDims f32 w h maxW maxH).1 * h + w + h) ∧
    (w + h ≤ (newDims f32 w h maxW maxH).2 * h →
      aspectRoundPreserved w h (newDims f32 w h maxW maxH).1 (newDims f32 w h maxW maxH).2) := by
  refine ⟨?_, newDims_scaled_props rounding_f32 w h maxW maxH hw hh hmw hmh bw bh bmw bmh hreq⟩
  rw [newDims_scaling f32 w h maxW maxH hreq]
  unfold scaleOf
  rw [rounding_f32.natCast w bw, rounding_f32.natCast h bh, rounding_f32.natCast maxW bmw,
    rounding_f32.natCast maxH bmh]

theorem newDims_aspect_witness :
    (1080 > 600 ∨ 1350 > 140) ∧ newDims f32 1080 1350 600 140 = (111, 140) ∧
    aspectRoundPreserved 1080 1350 (newDims f32 1080 1350 600 140).1
      (newDims f32 1080 1350 600 140).2 :=
  ⟨by decide, newDims_f32_1080_1350,
    (newDims_aspect 1080 1350 600 140 (by decide) (by decide) (by decide) (by decide)
      (by norm_num) (by norm_num) (by norm_num) (by norm_num) (by decide)).2.2.2.2
      (by rw [newDims_f32_1080_1350]; decide)⟩

/-! ## Video target dimensions against the image formula -/

theorem srcCoord_lt (s : ℚ) (hs : 0 < s) (w x : Nat) (hx : x < ⌊(w : ℚ) * s⌋₊) :
    srcCoord id s x < w := by
  unfold srcCoord toInt
  simp only [id]
  have h1 : ((x + 1 : ℕ) : ℚ) ≤ (w : ℚ) * s := by
    have := Nat.floor_le (a := (w : ℚ) * s) (by positivity)
    have h2 : ((x + 1 : ℕ) : ℚ) ≤ ((⌊(w : ℚ) * s⌋₊ : ℕ) : ℚ) := by exact_mod_cast hx
    exact le_trans h2 this
  have h3 : (x : ℚ) / s < w := by
    rw [div_lt_iff₀ hs]
    push_cast at h1
    linarith
  exact (Nat.floor_lt (by positivity)).2 h3

theorem index_lt (a b n m ch c : Nat) (ha : a < n) (hb : b < m) (hc : c < ch) :
    (a * m + b) * ch + c < m * n * ch := by
  have h1 : a * m + b + 1 ≤ m * n := by
    calc a * m + b + 1 ≤ a * m + m := by omega
      _ = (a + 1) * m := by ring
      _ ≤ n * m := Nat.mul_le_mul_right m ha
      _ = m * n := by ring
  calc (a * m + b) * ch + c < (a * m + b) * ch + ch := by omega
    _ = (a * m + b + 1) * ch := by ring
    _ ≤ m * n * ch := Nat.mul_le_mul_right ch h1

/-- C10: for positive `w`, `h`, `maxW`, `maxH` with scaling required, at every destination
coordinate `x < newW`, `y < newH` and channel `c < channels` the nearest-neighbour loop
visits, the sampled source coordinate `(⌊x / scale⌋, ⌊y / scale⌋)` (with exact rational
`scale`) has `src_x < w` and `src_y < h`; hence the source read
`(src_y * w + src_x) * channels + c` lies inside the `w * h * channels` source buffer and
the destination write inside the `newW * newH * channels` destination buffer. -/
theorem resample_indices_in_bounds (w h maxW maxH channels x y c : Nat)
    (hw : 0 < w) (hh : 0 < h) (hmw : 0 < maxW) (hmh : 0 < maxH)
    (hreq : w > maxW ∨ h > maxH)
    (hx : x < (newDims id w h maxW maxH).1) (hy : y < (newDims id w h maxW maxH).2)
    (hc : c < channels) :
    srcCoord id (scaleOf id w h maxW maxH) x < w ∧
    srcCoord id (scaleOf id w h maxW maxH) y < h ∧
    srcIndex id w channels (scaleOf id w h maxW maxH) x y c < w * h * channels ∧
    dstIndex (newDims id w h maxW maxH).1 channels x y c
      < (newDims id w h maxW maxH).1 * (newDims id w h maxW maxH).2 * channels := by
  have hs := scaleOf_pos w h maxW maxH hw hh hmw hmh
  rw [newDims_scaling id w h maxW maxH hreq] at hx hy ⊢
  have sx := srcCoord_lt _ hs w x hx
  have sy := srcCoord_lt _ hs h y hy
  exact ⟨sx, sy, index_lt _ _ _ _ _ _ sy sx hc, index_lt _ _ _ _ _ _ hy hx hc⟩

theorem resample_indices_in_bounds_witness :
    srcIndex id 100 3 (scaleOf id 100 3 60 140) 59 0 2 < 100 * 3 * 3 ∧
    dstIndex (newDims id 100 3 60 140).1 3 59 0 2
      < (newDims id 100 3 60 140).1 * (newDims id 100 3 60 140).2 * 3 :=
  (resample_indices_in_bounds 100 3 60 140 3 59 0 2 (by decide) (by decide) (by decide)
    (by decide) (by decide) (by rw [newDims_id_100_3]; decide)
    (by rw [newDims_id_100_3]; decide) (by decide)).2.2

/-- A destination column below the scaled width samples a source column below the source
width, in any rounded arithmetic, for sizes below `2^20`; rows likewise. -/
theorem srcCoord_lt_rounded {rnd : ℚ → ℚ} (hr : Rounding rnd) (w h maxW maxH : ℕ)
    (hw : 0 < w) (hh : 0 < h) (hmw : 0 < maxW) (hmh : 0 < maxH)
    (bw : w < 2 ^ 20) (bh : h < 2 ^ 20) (bmw : maxW < 2 ^ 20) (bmh : maxH < 2 ^ 20)
    (hreq : w > maxW ∨ h > maxH) :
    (∀ x, x < (newDims rnd w h maxW maxH).1 →
      srcCoord rnd (scaleOf rnd w h maxW maxH) x < w) ∧
    (∀ y, y < (newDims rnd w h maxW maxH).2 →
      srcCoord rnd (scaleOf rnd w h maxW maxH) y < h) := by
  obtain ⟨⟨bA, bB⟩, -⟩ :=
    newDims_scaled_props hr w h maxW maxH hw hh hmw hmh bw bh bmw bmh hreq
  rw [newDims_scaling rnd w h maxW maxH hreq] at bA bB ⊢
  obtain ⟨hs, hsa, hsb, hA0, hB0, ⟨-, A2⟩, ⟨-, B2⟩, -⟩ :=
    scaled_sides_bounds hr w h maxW maxH hw hh hmw hmh bw bh bmw bmh
  set s := scaleOf rnd w h maxW maxH with hsdef
  have hW : (0 : ℚ) < w := by exact_mod_cast hw
  have hH : (0 : ℚ) < h := by exact_mod_cast hh
  have cW : (w : ℚ) < 1048576 := by exact_mod_cast bw
  have cH : (h : ℚ) < 1048576 := by exact_mod_cast bh
  have hs1 : s ≤ 1 + 1 / 16777216 := by
    rcases hreq with h1 | h1
    · have : (maxW : ℚ) / w ≤ 1 := by
        rw [div_le_one hW]
        exact_mod_cast h1.le
      nlinarith
    · have : (maxH : ℚ) / h ≤ 1 := by
        rw [div_le_one hH]
        exact_mod_cast h1.le
      nlinarith
  have key : ∀ (n : ℕ) (N : ℚ) (x : ℕ), (0 : ℚ) < n → (n : ℚ) < 1048576 → 0 < N →
      N ≤ n * s * (1 + 1 / 16777216) → x < ⌊N⌋₊ → x < 2 ^ 20 →
      srcCoord rnd s x < n := by
    intro n N x hn cn hN0 hN hx bx
    unfold srcCoord toInt
    rw [hr.natCast x bx]
    rcases Nat.eq_zero_or_pos x with h0 | h0
    · subst h0
      have : rnd ((((0 : ℕ) : ℚ)) / s) = 0 := by
        rw [Nat.cast_zero, zero_div]
        have := hr.nat 0 (by norm_num)
        rwa [Nat.cast_zero] at this
      rw [this, Nat.floor_zero]
      exact_mod_cast hn
    · have hxq : (0 : ℚ) < x := by exact_mod_cast h0
      have hq : (0 : ℚ) < (x : ℚ) / s := by positivity
      have u := hr.hi hq
      have p := hr.pos hq
      have x1 : ((x + 1 : ℕ) : ℚ) ≤ N :=
        le_trans (by exact_mod_cast hx) (Nat.floor_le hN0.le)
      push_cast at x1
      have x2 : (x : ℚ) / s ≤ n * (1 + 1 / 16777216) - (1 - 1 / 16777216) := by
        rw [div_le_iff₀ hs]
        nlinarith
      rw [Nat.floor_lt p.le]
      linarith
  constructor
  · intro x hx
    exact key w _ x hW cW hA0 A2 hx (lt_of_lt_of_le hx (le_trans bA bmw.le))
  · intro y hy
    exact key h _ y hH cH hB0 B2 hy (lt_of_lt_of_le hy (le_trans bB bmh.le))

/-- In the single-precision arithmetic of the code, for sizes below `2^20`, every source
read and destination write of the nearest-neighbour loops is in bounds as well. -/
theorem resample_f32_indices_in_bounds (w h maxW maxH channels x y c : Nat)
    (hw : 0 < w) (hh : 0 < h) (hmw : 0 < maxW) (hmh : 0 < maxH)
    (bw : w < 2 ^ 20) (bh : h < 2 ^ 20) (bmw : maxW < 2 ^ 20) (bmh : maxH < 2 ^ 20)
    (hreq : w > maxW ∨ h > maxH)
    (hx : x < (newDims f32 w h maxW maxH).1) (hy : y < (newDims f32 w h maxW maxH).2)
    (hc : c < channels) :
    srcIndex f32 w channels (scaleOf f32 w h maxW maxH) x y c < w * h * channels ∧
    dstIndex (newDims f32 w h maxW maxH).1 channels x y c
      < (newDims f32 w h maxW maxH).1 * (newDims f32 w h maxW maxH).2 * channels := by
  obtain ⟨kx, ky⟩ :=
    srcCoord_lt_rounded rounding_f32 w h maxW maxH hw hh hmw hmh bw bh bmw bmh hreq
  exact ⟨index_lt _ _ _ _ _ _ (ky y hy) (kx x hx) hc, index_lt _ _ _ _ _ _ hy hx hc⟩

/-! ## Image renderer: the grid of cells -/

theorem foldl_renderFrame_file (nw nh : Nat) :
    ∀ (frames : List RGBFrame) (s : Sinks),
      frames.foldl (renderFrame nw nh true) s
        = ⟨s.frame_number + frames.length,
           s.file ++ concatStr ((frames.enumFrom (s.frame_number + 1)).map (frameBlock nw nh)),
           s.term⟩ := by
  intro frames
  induction frames with
  | nil => intro s; simp [concatStr]
  | cons f fs ih =>
    intro s
    rw [List.foldl_cons, ih]
    simp only [renderFrame, if_true, List.length_cons, List.enumFrom_cons, List.map_cons,
      concatStr, frameBlock, String.append_assoc]
    congr 1
    omega

theorem foldl_packetStep_file (vs nw nh : Nat) :
    ∀ (packets : List Packet) (s : Sinks),
      packets.foldl (packetStep vs nw nh true) s
        = ⟨s.frame_number + (yieldedFrames vs packets []).length,
           s.file ++ concatStr (((yieldedFrames vs packets []).enumFrom (s.frame_number + 1)).map
             (frameBlock nw nh)),
           s.term⟩ := by
  intro packets
  induction packets with
  | nil => intro s; simp [yieldedFrames, concatStr]
  | cons p ps ih =>
    intro s
    rw [List.foldl_cons, ih]
    unfold packetStep
    by_cases h1 : p.stream_index = vs
    · by_cases h2 : p.send_ok = true
      · rw [if_pos h1, if_pos h2, foldl_renderFrame_file]
        simp only [yieldedFrames, List.append_nil, List.filter_cons, h1, h2, and_self,
          decide_True, if_true, List.flatMap_cons, List.length_append, List.enumFrom_append,
          List.map_append, concatStr_append, String.append_assoc, Nat.add_assoc]
        rw [Nat.add_comm p.frames.length 1]
      · rw [if_pos h1, if_neg h2]
        simp [yieldedFrames, List.filter_cons, h1, h2]
    · rw [if_neg h1]
      simp [yieldedFrames, List.filter_cons, h1]

/-- The glyph rows of a frame: one row per even frame row, one cell per column, each row
ended by a newline. -/
theorem frameRows_eq (w h : Nat) (f : RGBFrame) (write_to_file : Bool) :
    frameRows w h f write_to_file
      = concatStr ((List.range ((h + 1) / 2)).map (fun i =>
          concatStr ((List.range w).map (fun x => videoCell f write_to_file (2 * i) x))
            ++ "\n")) := by
  unfold frameRows
  rw [forLoop_step_two _ h 0 h (by omega)]
  simp only [Nat.sub_zero, Nat.zero_add]
  congr 1
  apply List.map_congr_left
  intro i _
  rw [forLoop_step_one _ w 0 w (by omega)]
  simp only [Nat.sub_zero, Nat.zero_add]

/-- C8: in file mode, if the decoder yields `N` frames over the session (those drained in
the packet loop, then those drained by the end-of-stream flush), the bytes written to the
output file are exactly `N` frame blocks in decode order, with the labels `1, 2, ..., N`.
Block `k` is the label line `Frame k:`, then that frame's glyph rows (for every even row
`2 * i` below `new_height` the glyphs `get_ascii_char ((R + G + B) / 3)` of its first
`new_width` pixels, then a newline), then one blank line. The counter ends at `N`. -/
theorem frameLoop_file_blocks (video_stream new_width new_height N : Nat)
    (packets : List Packet) (flushed : List RGBFrame)
    (hN : (yieldedFrames video_stream packets flushed).length = N) :
    (frameLoop video_stream new_width new_height true packets flushed).file
      = concatStr (((yieldedFrames video_stream packets flushed).enumFrom 1).map
          (fun kf => "Frame " ++ toString kf.1 ++ ":\n"
            ++ concatStr ((List.range ((new_height + 1) / 2)).map (fun i =>
                concatStr ((List.range new_width).map (fun x =>
                  String.singleton (get_ascii_char
                    ((kf.2.data.getD (2 * i * kf.2.linesize + x * 3) 0
                      + kf.2.data.getD (2 * i * kf.2.linesize + x * 3 + 1) 0
                      + kf.2.data.getD (2 * i * kf.2.linesize + x * 3 + 2) 0) / 3))))
                ++ "\n"))
            ++ "\n")) ∧
    ((yieldedFrames video_stream packets flushed).enumFrom 1).map Prod.fst
      = List.range' 1 N ∧
    (frameLoop video_stream new_width new_height true packets flushed).frame_number = N := by
  have hb : (fun kf : Nat × RGBFrame => "Frame " ++ toString kf.1 ++ ":\n"
      ++ concatStr ((List.range ((new_height + 1) / 2)).map (fun i =>
          concatStr ((List.range new_width).map (fun x =>
            String.singleton (get_ascii_char
              ((kf.2.data.getD (2 * i * kf.2.linesize + x * 3) 0
                + kf.2.data.getD (2 * i * kf.2.linesize + x * 3 + 1) 0
                + kf.2.data.getD (2 * i * kf.2.linesize + x * 3 + 2) 0) / 3))))
          ++ "\n"))
      ++ "\n") = frameBlock new_width new_height := by
    funext kf
    simp only [frameBlock, frameLabel, frameRows_eq, videoCell, if_true, String.append_assoc]
  rw [hb, ← hN, List.enumFrom_map_fst]
  unfold frameLoop
  rw [foldl_packetStep_file, foldl_renderFrame_file]
  simp only [yieldedFrames, List.append_nil, List.enumFrom_append, List.map_append,
    concatStr_append, Nat.zero_add, List.length_append, String.empty_append,
    Nat.add_comm 1, and_self]

theorem frameLoop_file_blocks_witness :
    (frameLoop 0 2 3 true
        [⟨0, true, [sampleFrame]⟩, ⟨1, true, [sampleFrame]⟩, ⟨0, false, [sampleFrame]⟩,
          ⟨0, true, [sampleFrame]⟩] [sampleFrame]).file
      = "Frame 1:\n %\n-:\n\nFrame 2:\n %\n-:\n\nFrame 3:\n %\n-:\n\n" ∧
    (frameLoop 0 2 3 true
        [⟨0, true, [sampleFrame]⟩, ⟨1, true, [sampleFrame]⟩, ⟨0, false, [sampleFrame]⟩,
          ⟨0, true, [sampleFrame]⟩] [sampleFrame]).frame_number = 3 :=
  ⟨(frameLoop_file_blocks 0 2 3 3
      [⟨0, true, [sampleFrame]⟩, ⟨1, true, [sampleFrame]⟩, ⟨0, false, [sampleFrame]⟩,
        ⟨0, true, [sampleFrame]⟩] [sampleFrame] (by decide)).1.trans (by decide),
    (frameLoop_file_blocks 0 2 3 3
      [⟨0, true, [sampleFrame]⟩, ⟨1, true, [sampleFrame]⟩, ⟨0, false, [sampleFrame]⟩,
        ⟨0, true, [sampleFrame]⟩] [sampleFrame] (by decide)).2.2⟩

/-- When every set-up call succeeds, `process_video` in file mode writes what the frame
loop writes for the dimensions `videoDims f32`. -/
theorem process_video_file (k : Session) (output_file : String) (maxW maxH vs : Nat)
    (h1 : k.frame_alloc = true) (h2 : k.packet_alloc = true) (h3 : k.fopen = true)
    (h4 : k.open_input = true) (h5 : k.find_stream_info = true)
    (h6 : k.video_stream = some vs) (h7 : k.find_decoder = true)
    (h8 : k.alloc_context3 = true) (h9 : k.parameters_to_context = true)
    (h10 : k.open2 = true) (h11 : k.sws_getContext = true)
    (h12 : k.rgb_frame_alloc = true) (h13 : k.get_buffer = true) :
    (process_video k true output_file maxW maxH).file
      = some (frameLoop vs (videoDims f32 k.width k.height maxW maxH).1
          (videoDims f32 k.width k.height maxW maxH).2 true k.packets k.flushed).file := by
  simp [process_video, h1, h2, h3, h4, h5, h6, h7, h8, h9, h10, h11, h12, h13]

/-! ## Video: resource lifecycle -/

/-- C9, at the failing input: the output file is opened and `avformat_open_input` then
fails. `process_video` frees the packet and the frame and returns; the output file it
opened is never closed. -/
theorem process_video_leaks_file :
    (process_video openInputFails true "output.txt" 600 140).events
      = [Event.acquire Resource.frame, Event.acquire Resource.packet,
          Event.acquire Resource.out_file, Event.release Resource.packet,
          Event.release Resource.frame] ∧
    (process_video openInputFails true "output.txt" 600 140).events.count
        (Event.acquire Resource.out_file) = 1 ∧
    (process_video openInputFails true "output.txt" 600 140).events.count
        (Event.release Resource.out_file) = 0 ∧
    ¬ balanced Resource.out_file
        (process_video openInputFails true "output.txt" 600 140).events := by
  refine ⟨by decide, by decide, by decide, ?_⟩
  unfold balanced
  decide

/-- On the path where every set-up call succeeds, the output file is closed exactly once. -/
theorem process_video_success_closes_file (k : Session) (output_file : String)
    (maxW maxH vs : Nat)
    (h1 : k.frame_alloc = true) (h2 : k.packet_alloc = true) (h3 : k.fopen = true)
    (h4 : k.open_input = true) (h5 : k.find_stream_info = true)
    (h6 : k.video_stream = some vs) (h7 : k.find_decoder = true)
    (h8 : k.alloc_context3 = true) (h9 : k.parameters_to_context = true)
    (h10 : k.open2 = true) (h11 : k.sws_getContext = true)
    (h12 : k.rgb_frame_alloc = true) (h13 : k.get_buffer = true) :
    balanced Resource.out_file (process_video k true output_file maxW maxH).events := by
  simp [process_video, balanced, h1, h2, h3, h4, h5, h6, h7, h8, h9, h10, h11, h12, h13]

set_option maxHeartbeats 1600000

/-- On every path of `process_video`, successful or failing at any step, each native
resource other than the output file is released exactly once if it was acquired. -/
theorem process_video_balanced_native (k : Session) (wtf : Bool) (o : String) (mw mh : Nat)
    (r : Resource) (hr : r ≠ Resource.out_file) :
    balanced r (process_video k wtf o mw mh).events := by
  rcases k with ⟨a, b, c, d, e, vs, f, g, h, i, w, ht, j, l, m, ps, fl⟩
  cases wtf
  · cases a
    · cases r <;> first | exact absurd rfl hr | (simp [process_video, balanced])
    cases b
    · cases r <;> first | exact absurd rfl hr | (simp [process_video, balanced])
    cases d
    · cases r <;> first | exact absurd rfl hr | (simp [process_video, balanced])
    cases e
    · cases r <;> first | exact absurd rfl hr | (simp [process_video, balanced])
    cases vs
    · cases r <;> first | exact absurd rfl hr | (simp [process_video, balanced])
    cases f
    · cases r <;> first | exact absurd rfl hr | (simp [process_video, balanced])
    cases g
    · cases r <;> first | exact absurd rfl hr | (simp [process_video, balanced])
    cases h
    · cases r <;> first | exact absurd rfl hr | (simp [process_video, balanced])
    cases i
    · cases r <;> first | exact absurd rfl hr | (simp [process_video, balanced])
    cases j
    · cases r <;> first | exact absurd rfl hr | (simp [process_video, balanced])
    cases l
    · cases r <;> first | exact absurd rfl hr | (simp [process_video, balanced])
    cases m
    · cases r <;> first | exact absurd rfl hr | (simp [process_video, balanced])
    cases r <;> first | exact absurd rfl hr | (simp [process_video, balanced])
  · cases a
    · cases r <;> first | exact absurd rfl hr | (simp [process_video, balanced])
    cases b
    · cases r <;> first | exact absurd rfl hr | (simp [process_video, balanced])
    cases c
    · cases r <;> first | exact absurd rfl hr | (simp [process_video, balanced])
    cases d
    · cases r <;> first | exact absurd rfl hr | (simp [process_video, balanced])
    cases e
    · cases r <;> first | exact absurd rfl hr | (simp [process_video, balanced])
    cases vs
    · cases r <;> first | exact absurd rfl hr | (simp [process_video, balanced])
    cases f
    · cases r <;> first | exact absurd rfl hr | (simp [process_video, balanced])
    cases g
    · cases r <;> first | exact absurd rfl hr | (simp [process_video, balanced])
    cases h
    · cases r <;> first | exact absurd rfl hr | (simp [process_video, balanced])
    cases i
    · cases r <;> first | exact absurd rfl hr | (simp [process_video, balanced])
    cases j
    · cases r <;> first | exact absurd rfl hr | (simp [process_video, balanced])
    cases l
    · cases r <;> first | exact absurd rfl hr | (simp [process_video, balanced])
    cases m
    · cases r <;> first | exact absurd rfl hr | (simp [process_video, balanced])
    cases r <;> first | exact absurd rfl hr | (simp [process_video, balanced])

end Ascii
